import Mathlib

/-!
Verification development for the traceability subsystem of the repository
(`fastestimator/util/traceability_util.py`): a shallow embedding of the
bytecode stack-machine reconstructor `_parse_instructions`, the value
tracer `_trace_value`, and the `traceable` class decorator (`__init__`
hook, `fe_summary`, `fe_state`), together with theorems about them.

Modelling conventions:
* Python lists are Lean `List`s in the same left-to-right order; `append`
  adds at the right end, `pop()` removes the right end, `pop(i)` supports
  Python's negative-index wrap-around and raises `IndexError` out of range.
* Python exceptions are the `PyExc` error type of an `Except` result.
* Machine integers do not occur (Python ints are unbounded); numbers are
  `Int`.
* The interpreter loop is driven by a fuel parameter so that every
  function is structurally recursive and kernel-computable; a theorem
  below proves the chosen fuel is always sufficient, so the fuel is an
  embedding artifact, not a semantic restriction.
-/

/-- Constant operands carried by a `dis.Instruction` (`argval`): the
constants, names and counts appearing in lambda bytecode. -/
inductive Const where
  | i (n : Int)
  | s (v : String)
  | b (v : Bool)
  | none_
  | tup (xs : List Const)
deriving Repr

/-- One entry of the instruction stream: an opcode name and its `argval`,
mirroring the fields of `dis.Instruction` that the source reads. -/
structure Instruction where
  opname : String
  arg : Const
deriving Repr

/-- The Python exceptions that the embedded code can raise. -/
inductive PyExc where
  | indexError
  | attributeError
  | typeError
  | valueError
  | keyError (k : String)
deriving Repr, DecidableEq

/-- Runtime values flowing through `_parse_instructions` and
`_trace_value`: scalars, the namedtuples `_VarWrap`, `_Command`,
`_Condition`, `_BoundFn`, `inspect.BoundArguments`, containers, lambda
functions (with their captured closure scopes), named functions or
classes, and generic object instances.  In `condition`, the source uses
the Python constant `None` for a branch that is not yet filled in, so the
`none_` value plays that role here as well.  An `obj` carries its class's
module, qualified name and identity (the source renders `id(inp.__class__)`)
plus its attribute `__dict__`. -/
inductive Value where
  | none_
  | intV (n : Int)
  | boolV (b : Bool)
  | strV (s : String)
  | varWrap (v : String)
  | command (left right : Value) (cmd : String)
  | condition (left right cond : Value)
  | boundFn (func args : Value)
  | boundArguments (pairs : List (String × Value))
  | listV (xs : List Value)
  | tupleV (xs : List Value)
  | setV (xs : List Value)
  | mapV (pairs : List (Value × Value))
  | lam (varNames : List String) (instrs : List Instruction)
        (nonlocals globalsV builtins : List (String × Value))
  | pyFunc (module qualname : String) (params : List String)
           (defaults : List (String × Value))
  | obj (module qualname : String) (cid : Nat) (dict : List (String × Value))

/-- The triple of scopes produced by `inspect.getclosurevars`, restricted
to what the source reads: name-to-value maps for nonlocal, global and
builtin bindings. -/
structure ClosureVars where
  nonlocals : List (String × Value)
  globalsV : List (String × Value)
  builtins : List (String × Value)

/-- The mutable state of the `_parse_instructions` while-loop: the working
copy of the instruction list, the `conditions` stack (each entry the
`(left, right, condition)` fields of a pending `_Condition`), the `args`
operand stack, and the loop index (an `Int`, since the source decrements
it and Python indexing wraps negatives). -/
structure MState where
  work : List Instruction
  conds : List (Value × Value × Value)
  args : List Value
  idx : Int

/-- Result of one loop iteration: continue with a new state, or leave the
function with a result (a parse, a parse failure `none`, or an
exception). -/
inductive StepRes where
  | cont (s : MState)
  | done (r : Except PyExc (Option Value))

/-! ## Python list and association-list primitives -/

/-- Python sequence-index normalization: negative indices wrap once by
the length; a still-out-of-range index is `none` (an `IndexError` at the
call sites). -/
def pyIdx (len : Nat) (i : Int) : Option Nat :=
  let e : Int := if i < 0 then (len : Int) + i else i
  if 0 ≤ e ∧ e < (len : Int) then some e.toNat else none

/-- Python `l[i]` with wrap-around. -/
def pyGetL (l : List α) (i : Int) : Option α :=
  match pyIdx l.length i with
  | none => none
  | some n => l.get? n

/-- Python `l.pop(i)`: removes and returns the element at (wrap-around)
position `i`; `none` models the `IndexError` for an out-of-range index. -/
def pyPopAt (l : List α) (i : Int) : Option (α × List α) :=
  match pyIdx l.length i with
  | none => none
  | some n =>
    match l.get? n with
    | none => none
    | some a => some (a, l.take n ++ l.drop (n + 1))

/-- Python `l.pop()` (and `deque.pop()`): removes and returns the last
element; `none` models the `IndexError` on an empty list. -/
def pyPopLast (l : List α) : Option (α × List α) :=
  match l.getLast? with
  | none => none
  | some a => some (a, l.dropLast)

/-- Lookup in a string-keyed association list (Python `dict` access by a
string key; the first binding wins). -/
def alistFind (k : String) : List (String × α) → Option α
  | [] => none
  | (k2, v) :: rest => if k2 = k then some v else alistFind k rest

/-- Python `d[k] = v` on a string-keyed dict: overwrite in place if the
key is present, else append at the end (insertion order preserved). -/
def alistSet (k : String) (v : α) : List (String × α) → List (String × α)
  | [] => [(k, v)]
  | (k2, v2) :: rest =>
    if k2 = k then (k2, v) :: rest else (k2, v2) :: alistSet k v rest

/-- Python `d.pop(k, None)` on a string-keyed dict: remove the key if
present (all bindings of it, since a Python dict has unique keys). -/
def alistPop (k : String) : List (String × α) → List (String × α)
  | [] => []
  | (k2, v) :: rest =>
    if k2 = k then alistPop k rest else (k2, v) :: alistPop k rest

/-- Python `k in d` for a string-keyed dict. -/
def alistHas (k : String) (d : List (String × α)) : Bool :=
  (alistFind k d).isSome

mutual

/-- Python `==` on the hashable values that can appear as dict keys here
(`True == 1` included); keys of kinds the machine cannot hash-compare are
treated as distinct. -/
def pyValueEq (a b : Value) : Bool :=
  match a, b with
  | .none_, .none_ => true
  | .intV x, .intV y => x == y
  | .boolV x, .boolV y => x == y
  | .intV x, .boolV y => x == (if y then (1 : Int) else 0)
  | .boolV x, .intV y => (if x then (1 : Int) else 0) == y
  | .strV x, .strV y => x == y
  | .varWrap x, .varWrap y => x == y
  | .tupleV xs, .tupleV ys => pyValueEqList xs ys
  | _, _ => false
termination_by sizeOf a

/-- Elementwise Python `==` of two tuples (used by `pyValueEq`). -/
def pyValueEqList (xs ys : List Value) : Bool :=
  match xs, ys with
  | [], [] => true
  | x :: xr, y :: yr => pyValueEq x y && pyValueEqList xr yr
  | _, _ => false
termination_by sizeOf xs

end

/-- Python `d[k] = v` on a value-keyed dict. -/
def vdictSet (d : List (Value × Value)) (k v : Value) : List (Value × Value) :=
  match d with
  | [] => [(k, v)]
  | (k2, v2) :: rest =>
    if pyValueEq k2 k then (k2, v) :: rest else (k2, v2) :: vdictSet rest k v

/-! ## Small conversions on constants and values -/

/-- Python `str()` of a constant, used when a `LOAD_FAST` name (always a
string in real bytecode) is interpolated into output text. -/
def Const.pyStr : Const → String
  | .i n => toString n
  | .s v => v
  | .b true => "True"
  | .b false => "False"
  | .none_ => "None"
  | .tup _ => "<tuple>"

/-- The value pushed by `LOAD_CONST`: the instruction's `argval` as a
runtime value. -/
def constToValue (c : Const) : Value :=
  match c with
  | .i n => .intV n
  | .s v => .strV v
  | .b v => .boolV v
  | .none_ => .none_
  | .tup xs => .tupleV (constListToValue xs)
where
  constListToValue : List Const → List Value
  | [] => []
  | c :: cs => constToValue c :: constListToValue cs

/-- An `argval` used as an iteration count (`range(n_args)`): ints (with
Python's empty `range` for negatives) and bools qualify; anything else is
a `TypeError` at the call sites. -/
def constToCount : Const → Option Nat
  | .i n => some (if n < 0 then 0 else n.toNat)
  | .b v => some (if v then 1 else 0)
  | _ => none

/-- A value iterated as a sequence of strings (keyword-name tuples,
blacklist tuples): tuples/lists of strings, or a string as its
characters. -/
def strSeqOf : Value → Option (List String)
  | .tupleV xs => strListOf xs
  | .listV xs => strListOf xs
  | .strV s => some (s.toList.map (fun ch => String.mk [ch]))
  | _ => none
where
  strListOf : List Value → Option (List String)
  | [] => some []
  | .strV s :: rest =>
    match strListOf rest with
    | some l => some (s :: l)
    | none => none
  | _ => none

/-- A value iterated generically (the keys container of
`BUILD_CONST_KEY_MAP`): sequences yield their elements, dicts their
keys. -/
def iterableOf : Value → Option (List Value)
  | .tupleV xs => some xs
  | .listV xs => some xs
  | .setV xs => some xs
  | .mapV ps => some (ps.map Prod.fst)
  | .strV s => some (s.toList.map (fun ch => .strV (String.mk [ch])))
  | _ => none

/-- Python `v is None` as used for the unset branch slots of a pending
`_Condition` (the machine stores the constant `None` there). -/
def isNoneV : Value → Bool
  | .none_ => true
  | _ => false

/-- Python truthiness (`if self._fe_state_whitelist:` etc.). -/
def pyTruthy : Value → Bool
  | .none_ => false
  | .intV n => n != 0
  | .boolV b => b
  | .strV s => s ≠ ""
  | .listV xs => !xs.isEmpty
  | .tupleV xs => !xs.isEmpty
  | .setV xs => !xs.isEmpty
  | .mapV ps => !ps.isEmpty
  | .boundArguments _ => true
  | .varWrap _ => true
  | .command _ _ _ => true
  | .condition _ _ _ => true
  | .boundFn _ _ => true
  | .lam _ _ _ _ _ => true
  | .pyFunc _ _ _ _ => true
  | .obj _ _ _ _ => true

/-- Python `str()` restricted to the scalar values that are interpolated
into f-strings in the embedded fragments (summaries are always strings). -/
def pyScalarStr : Value → String
  | .strV s => s
  | .intV n => toString n
  | .boolV true => "True"
  | .boolV false => "False"
  | .none_ => "None"
  | _ => "<object>"

/-! ## The operator table and scope resolution -/

/-- The `_CommandTable` of the source: display symbols for the supported
binary/in-place/comparison mnemonics. -/
def _CommandTable : List (String × String) :=
  [("POWER", "**"), ("MULTIPLY", "*"), ("MATRIX_MULTIPLY", "@"),
   ("FLOOR_DIVIDE", "//"), ("TRUE_DIVIDE", "/"), ("MODULO", "%"),
   ("ADD", "+"), ("SUBTRACT", "-"), ("SUBSCR", "[]"), ("LSHIFT", "<<"),
   ("RSHIFT", ">>"), ("AND", "&"), ("XOR", "^"), ("OR", "|"),
   (">", ">"), ("<", "<"), ("==", "=="), ("!=", "!="), ("<=", "<="),
   (">=", ">=")]

/-- Prefix test on character lists (a kernel-computable
`String.startsWith`). -/
def listIsPrefix : List Char → List Char → Bool
  | [], _ => true
  | _, [] => false
  | a :: as, b :: bs => a == b && listIsPrefix as bs

/-- Python `s.startswith(pre)`. -/
def strStartsWith (s pre : String) : Bool := listIsPrefix pre.data s.data

/-- Modelled from the spec: the helper `strip_prefix` imported from
`fastestimator.util.util`, whose code is not part of the given sources.
Per the spec's Operator Table (mnemonic lookup such as `BINARY_ADD`
resolving to the key `ADD`), it removes the given prefix from the string
when present and returns the string unchanged otherwise. -/
def strip_prefix (target pre : String) : String :=
  if strStartsWith target pre then { data := target.data.drop pre.data.length }
  else target

/-- The chained scope lookup
`closure_vars.nonlocals.get(n, ...globals... .get(n, ...builtins... .get(n, None)))`
used by `_parse_instructions` and `_deref_is_callable`; a non-string
`argval` is absent from all three string-keyed scopes, hence `None`. -/
def resolve3 (cv : ClosureVars) (arg : Const) : Value :=
  match arg with
  | .s n =>
    match alistFind n cv.nonlocals with
    | some v => v
    | none =>
      match alistFind n cv.globalsV with
      | some v => v
      | none => (alistFind n cv.builtins).getD .none_
  | _ => .none_

/-- Python `hasattr(v, '__call__')` for the modelled values: functions,
classes and lambdas are callable; an object is callable when its dict
exposes `__call__`. -/
def isCallableV : Value → Bool
  | .pyFunc _ _ _ _ => true
  | .lam _ _ _ _ _ => true
  | .obj _ _ _ d => alistHas "__call__" d
  | _ => false

/-- `_deref_is_callable` of the source: resolve the instruction's
`argval` through the scopes and test for `__call__`. -/
def _deref_is_callable (cv : ClosureVars) (ins : Instruction) : Bool :=
  isCallableV (resolve3 cv ins.arg)

/-- Python `getattr(v, name)`: attribute lookup on an object's dict;
anything else (including `None` from a failed scope resolution) raises
`AttributeError`. -/
def pyGetattr (v : Value) (attr : Const) : Except PyExc Value :=
  match v, attr with
  | .obj _ _ _ d, .s n =>
    match alistFind n d with
    | some a => .ok a
    | none => .error .attributeError
  | _, _ => .error .attributeError

/-! ## Signature binding (`inspect.signature(...).bind` + `apply_defaults`) -/

/-- `inspect.signature(function)`: the parameter list and defaults of a
callable; raises `TypeError` for non-callables. -/
def signatureOf : Value → Except PyExc (List String × List (String × Value))
  | .pyFunc _ _ params defaults => .ok (params, defaults)
  | .lam vars _ _ _ _ => .ok (vars, [])
  | _ => .error .typeError

/-- Consume the keyword arguments of a `bind` call: each keyword must name
a parameter that is not already bound positionally (else `TypeError`). -/
def bindKw (params : List String) (bound : List (String × Value)) :
    List (String × Value) → Except PyExc (List (String × Value))
  | [] => .ok bound
  | (k, v) :: rest =>
    if params.contains k = false then .error .typeError
    else if alistHas k bound then .error .typeError
    else bindKw params (bound ++ [(k, v)]) rest

/-- Lay out the bound arguments in signature order, filling unbound
parameters from the declared defaults (`apply_defaults`); a missing
required parameter is the `TypeError` that `bind` raises. -/
def fillDefaults (defaults bound : List (String × Value)) :
    List String → Except PyExc (List (String × Value))
  | [] => .ok []
  | p :: rest =>
    match alistFind p bound with
    | some v =>
      match fillDefaults defaults bound rest with
      | .ok r => .ok ((p, v) :: r)
      | .error e => .error e
    | none =>
      match alistFind p defaults with
      | some v =>
        match fillDefaults defaults bound rest with
        | .ok r => .ok ((p, v) :: r)
        | .error e => .error e
      | none => .error .typeError

/-- `inspect.signature(f).bind(*pos, **kw)` followed by
`apply_defaults()`, for plain positional-or-keyword signatures: positional
arguments fill the leading parameters (too many raises `TypeError`),
keywords fill by name, defaults fill the rest, and the result is the
`arguments` mapping in signature order. -/
def sigBind (params : List String) (defaults : List (String × Value))
    (pos : List Value) (kw : List (String × Value)) :
    Except PyExc (List (String × Value)) :=
  if params.length < pos.length then .error .typeError
  else
    match bindKw params (params.zip pos) kw with
    | .error e => .error e
    | .ok bound => fillDefaults defaults bound params

/-! ## The stack machine: branch reductions -/

/-- Pop `n` operands into a deque by `appendleft` while excising the `n`
instructions just before the loop index (the common pattern of the
`BUILD_LIST`/`BUILD_TUPLE`/`BUILD_SET` and call branches); the returned
operand list is in original push order.  `none` is the `IndexError` of a
pop on an empty or out-of-range list. -/
def popN : Nat → List Value → List Instruction → Int →
    Option (List Value × List Value × List Instruction × Int)
  | 0, args, work, idx => some ([], args, work, idx)
  | n + 1, args, work, idx =>
    match pyPopLast args with
    | none => none
    | some (v, args1) =>
      match pyPopAt work (idx - 1) with
      | none => none
      | some (_, work1) =>
        match popN n args1 work1 (idx - 1) with
        | none => none
        | some (acc, a2, w2, i2) => some (acc ++ [v], a2, w2, i2)

/-- The `RETURN_VALUE` reduction: with no pending condition the loop
breaks to the final stack check; otherwise the most recent completed value
fills the pending condition's `left` slot first and `right` slot second,
exactly as in the source (including the index rewinds and the excision of
the just-consumed instructions). -/
def stepReturn (s : MState) : StepRes :=
  match s.conds.getLast? with
  | none =>
    match s.conds, s.args with
    | [], [a] => .done (.ok (some a))
    | _, _ => .done (.ok none)
  | some cc =>
    let conds1 := s.conds.dropLast
    match pyPopLast s.args with
    | none => .done (.error .indexError)
    | some (arg, args1) =>
      match pyPopAt s.work (s.idx - 1) with
      | none => .done (.error .indexError)
      | some (_, work1) =>
        match cc with
        | (l, _, c) =>
          if isNoneV l then
            match pyPopAt work1 (s.idx - 2) with
            | none => .done (.error .indexError)
            | some (_, work2) =>
              .cont ⟨work2, conds1 ++ [(arg, Value.none_, c)], args1, s.idx - 1⟩
          else
            let args2 := args1 ++ [Value.condition l arg c]
            if conds1.isEmpty then .cont ⟨work1, conds1, args2, s.idx⟩
            else .cont ⟨work1, conds1, args2, s.idx - 1⟩

/-- The `BUILD_LIST`/`BUILD_TUPLE`/`BUILD_SET` reduction. -/
def buildBranch (s : MState) (ins : Instruction) : Except PyExc MState :=
  match constToCount ins.arg with
  | none => .error .typeError
  | some n =>
    match popN n s.args s.work s.idx with
    | none => .error .indexError
    | some (xs, args2, work2, idx2) =>
      let container :=
        if ins.opname = "BUILD_TUPLE" then Value.tupleV xs
        else if ins.opname = "BUILD_SET" then Value.setV xs
        else Value.listV xs
      .ok ⟨work2, s.conds, args2 ++ [container], idx2 + 1⟩

/-- The pair-popping loop of `BUILD_MAP`: per pair pop the value then the
key, excise the two producing instructions, and insert into the mapping. -/
def popPairs : Nat → List Value → List Instruction → Int →
    List (Value × Value) →
    Option (List (Value × Value) × List Value × List Instruction × Int)
  | 0, args, work, idx, acc => some (acc, args, work, idx)
  | n + 1, args, work, idx, acc =>
    match pyPopLast args with
    | none => none
    | some (v, args1) =>
      match pyPopLast args1 with
      | none => none
      | some (k, args2) =>
        match pyPopAt work (idx - 1) with
        | none => none
        | some (_, work1) =>
          match pyPopAt work1 (idx - 2) with
          | none => none
          | some (_, work2) =>
            popPairs n args2 work2 (idx - 2) (vdictSet acc k v)

/-- The `BUILD_MAP` reduction. -/
def buildMapBranch (s : MState) (ins : Instruction) : Except PyExc MState :=
  match constToCount ins.arg with
  | none => .error .typeError
  | some n =>
    match popPairs n s.args s.work s.idx [] with
    | none => .error .indexError
    | some (pairs, args2, work2, idx2) =>
      .ok ⟨work2, s.conds, args2 ++ [Value.mapV pairs], idx2 + 1⟩

/-- The `BUILD_CONST_KEY_MAP` reduction: pop the keys container, pop the
values, and zip them into a mapping. -/
def bckmBranch (s : MState) (ins : Instruction) : Except PyExc MState :=
  match pyPopLast s.args with
  | none => .error .indexError
  | some (kv, args1) =>
    match pyPopAt s.work (s.idx - 1) with
    | none => .error .indexError
    | some (_, work1) =>
      match constToCount ins.arg with
      | none => .error .typeError
      | some n =>
        match popN n args1 work1 (s.idx - 1) with
        | none => .error .indexError
        | some (vals, args2, work2, idx2) =>
          match iterableOf kv with
          | none => .error .typeError
          | some keys =>
            let pairs := (keys.zip vals).foldl
              (fun acc p => vdictSet acc p.1 p.2) []
            .ok ⟨work2, s.conds, args2 ++ [Value.mapV pairs], idx2 + 1⟩

/-- The look-ahead of the chain branch: fold every immediately following
`LOAD_METHOD`/`LOAD_ATTR` into a `getattr` on the resolved object, excising
each folded instruction.  The fuel is instantiated with the working list's
length, which bounds the number of excisions, so it never runs out. -/
def foldAttrs : Nat → Value → List Instruction → Int →
    Except PyExc (Value × List Instruction)
  | 0, f, work, _ => .ok (f, work)
  | fuel + 1, f, work, idx =>
    if idx + 1 < (work.length : Int) then
      match pyGetL work (idx + 1) with
      | none => .error .indexError
      | some nxt =>
        if nxt.opname = "LOAD_METHOD" ∨ nxt.opname = "LOAD_ATTR" then
          match pyGetattr f nxt.arg with
          | .error e => .error e
          | .ok f2 =>
            match pyPopAt work (idx + 1) with
            | none => .error .indexError
            | some (_, work2) => foldAttrs fuel f2 work2 idx
        else .ok (f, work)
    else .ok (f, work)

/-- The `LOAD_METHOD`/`LOAD_ATTR`/`LOAD_GLOBAL`/`LOAD_DEREF` chain branch:
resolve the first name through the scopes, fold the following attribute
loads, and push the result. -/
def chainBranch (cv : ClosureVars) (s : MState) (ins : Instruction) :
    Except PyExc MState :=
  match foldAttrs s.work.length (resolve3 cv ins.arg) s.work s.idx with
  | .error e => .error e
  | .ok (f, work2) => .ok ⟨work2, s.conds, s.args ++ [f], s.idx + 1⟩

/-- The keyword-extraction loop of a `CALL_FUNCTION_KW`: iterate the
reversed keyword names, each taking the rightmost remaining positional
value (`fn_args.pop()`); returns the keyword mapping and the remaining
positional deque. -/
def takeKwargs (acc : List (String × Value)) (fnArgs : List Value) :
    List String → Except PyExc (List (String × Value) × List Value)
  | [] => .ok (acc, fnArgs)
  | n :: rest =>
    match pyPopLast fnArgs with
    | none => .error .indexError
    | some (v, fa) => takeKwargs (alistSet n v acc) fa rest

/-- The keyword-name stage of a call reduction: for `CALL_FUNCTION_KW`,
pop the keyword-name tuple (pushed by a `LOAD_CONST`) and excise that
instruction. -/
def kwStageOf (s : MState) (ins : Instruction) :
    Except PyExc (List String × List Value × List Instruction × Int) :=
  if ins.opname = "CALL_FUNCTION_KW" then
    match pyPopLast s.args with
    | none => .error .indexError
    | some (kn, args1) =>
      match pyPopAt s.work (s.idx - 1) with
      | none => .error .indexError
      | some (_, work1) =>
        match strSeqOf kn with
        | none => .error .typeError
        | some names => .ok (names, args1, work1, s.idx - 1)
  else .ok ([], s.args, s.work, s.idx)

/-- The `CALL_METHOD`/`CALL_FUNCTION`/`CALL_FUNCTION_KW` reduction: pop
the keyword-name tuple if present, pop the positional arguments, pop the
callable, bind the arguments against its signature with defaults applied,
and push a `_BoundFn`. -/
def callBranch (s : MState) (ins : Instruction) : Except PyExc MState :=
  match kwStageOf s ins with
  | .error e => .error e
  | .ok (names, args1, work1, idx1) =>
    match constToCount ins.arg with
    | none => .error .typeError
    | some n =>
      match popN n args1 work1 idx1 with
      | none => .error .indexError
      | some (fnArgs, args2, work2, idx2) =>
        match takeKwargs [] fnArgs names.reverse with
        | .error e => .error e
        | .ok (kws, fnArgs2) =>
          match pyPopLast args2 with
          | none => .error .indexError
          | some (function, args3) =>
            match pyPopAt work2 (idx2 - 1) with
            | none => .error .indexError
            | some (_, work3) =>
              match signatureOf function with
              | .error e => .error e
              | .ok (params, defaults) =>
                match sigBind params defaults fnArgs2 kws with
                | .error e => .error e
                | .ok bound =>
                  .ok ⟨work3, s.conds,
                       args3 ++ [Value.boundFn function (.boundArguments bound)],
                       idx2⟩

/-- The mnemonic looked up in the Operator Table by the binary branch:
the opname with `BINARY_`/`INPLACE_` stripped, or - for `COMPARE_OP` -
the comparison symbol carried in `argval`. -/
def commandOf (ins : Instruction) : String :=
  let stripped := strip_prefix ( strip_prefix ins.opname "BINARY_") "INPLACE_"
  if ins.opname = "COMPARE_OP" then
    match ins.arg with
    | .s v => v
    | _ => "<nonstring argval>"
  else stripped

/-- The `BINARY_*`/`INPLACE_*`/`COMPARE_OP` reduction: an unsupported
mnemonic is a parse failure (`None`); otherwise pop right then left and
push a `_Command` with the table's display symbol. -/
def stepBinary (s : MState) (ins : Instruction) : StepRes :=
  match alistFind (commandOf ins) _CommandTable with
  | none => .done (.ok none)
  | some sym =>
    match pyPopLast s.args with
    | none => .done (.error .indexError)
    | some (right, args1) =>
      match pyPopAt s.work (s.idx - 1) with
      | none => .done (.error .indexError)
      | some (_, work1) =>
        match pyPopLast args1 with
        | none => .done (.error .indexError)
        | some (left, args2) =>
          match pyPopAt work1 (s.idx - 2) with
          | none => .done (.error .indexError)
          | some (_, work2) =>
            .cont ⟨work2, s.conds,
                   args2 ++ [Value.command left right sym], s.idx - 1⟩

/-- The `POP_JUMP_IF_FALSE` reduction: push a pending `_Condition` with
unset branches holding the just-computed predicate. -/
def stepPJIF (s : MState) : StepRes :=
  match pyPopLast s.args with
  | none => .done (.error .indexError)
  | some (c, args1) =>
    match pyPopAt s.work (s.idx - 1) with
    | none => .done (.error .indexError)
    | some (_, work1) =>
      .cont ⟨work1, s.conds ++ [(Value.none_, Value.none_, c)], args1, s.idx⟩

/-- Wrap a fallible branch reduction as a step result. -/
def toStep : Except PyExc MState → StepRes
  | .ok s => .cont s
  | .error e => .done (.error e)

/-- The dispatch of one while-loop iteration on the current instruction's
opname, in the source's `elif` order; an opname outside the supported
vocabulary returns `None` (a parse failure). -/
def stepDispatch (cv : ClosureVars) (s : MState) (ins : Instruction) : StepRes :=
  if ins.opname = "RETURN_VALUE" then stepReturn s
    else if ins.opname = "LOAD_CONST" then
      .cont ⟨s.work, s.conds, s.args ++ [constToValue ins.arg], s.idx + 1⟩
    else if ins.opname = "LOAD_FAST" then
      .cont ⟨s.work, s.conds, s.args ++ [Value.varWrap ins.arg.pyStr], s.idx + 1⟩
    else if ins.opname = "BUILD_LIST" ∨ ins.opname = "BUILD_TUPLE" ∨
            ins.opname = "BUILD_SET" then
      toStep (buildBranch s ins)
    else if ins.opname = "BUILD_MAP" then toStep (buildMapBranch s ins)
    else if ins.opname = "BUILD_CONST_KEY_MAP" then toStep (bckmBranch s ins)
    else if ins.opname = "LOAD_DEREF" then
      if _deref_is_callable cv ins then toStep (chainBranch cv s ins)
      else
        match pyGetL s.work (s.idx + 1) with
        | none => .done (.error .indexError)
        | some nxt =>
          if nxt.opname = "LOAD_METHOD" ∨ nxt.opname = "LOAD_ATTR" then
            toStep (chainBranch cv s ins)
          else
            .cont ⟨s.work, s.conds, s.args ++ [resolve3 cv ins.arg], s.idx + 1⟩
    else if ins.opname = "LOAD_METHOD" ∨ ins.opname = "LOAD_ATTR" ∨
            ins.opname = "LOAD_GLOBAL" then
      toStep (chainBranch cv s ins)
    else if ins.opname = "CALL_METHOD" ∨ ins.opname = "CALL_FUNCTION" ∨
            ins.opname = "CALL_FUNCTION_KW" then
      toStep (callBranch s ins)
    else if strStartsWith ins.opname "BINARY_" ∨ strStartsWith ins.opname "INPLACE_" ∨
            ins.opname = "COMPARE_OP" then
      stepBinary s ins
    else if ins.opname = "POP_JUMP_IF_FALSE" then stepPJIF s
    else .done (.ok none)

/-- One iteration of the while-loop: read the current instruction (a
wrap-around index read, as in Python) and dispatch. -/
def step (cv : ClosureVars) (s : MState) : StepRes :=
  match pyGetL s.work s.idx with
  | none => .done (.error .indexError)
  | some ins => stepDispatch cv s ins

/-- The final stack check after the loop: success iff no pending
condition remains and exactly one operand is on the stack. -/
def finalize (s : MState) : Except PyExc (Option Value) :=
  match s.conds, s.args with
  | [], [a] => .ok (some a)
  | _, _ => .ok none

/-- The `_parse_instructions` while-loop, driven by fuel; `none` means the
fuel ran out (shown impossible below for the fuel used by the wrapper). -/
def runLoop (cv : ClosureVars) : Nat → MState → Option (Except PyExc (Option Value))
  | 0, s => if s.idx < (s.work.length : Int) then none else some (finalize s)
  | fuel + 1, s =>
    if s.idx < (s.work.length : Int) then
      match step cv s with
      | .done r => some r
      | .cont s2 => runLoop cv fuel s2
    else some (finalize s)

/-- Fuel sufficient for any run of the loop on a working list of the given
length (the measure `2*len - idx` starts at `2*len` and strictly decreases
every iteration). -/
def fuelFor (l : List Instruction) : Nat := 2 * l.length + 1

/-- The shallow copy `[x for x in instructions]` taken at the top of
`_parse_instructions`; every subsequent pop acts on this working copy. -/
def pyListCopy (l : List α) : List α := l.map (fun x => x)

/-- The loop of `_parse_instructions` run from the initial state on the
working copy. -/
def parseCore (cv : ClosureVars) (instructions : List Instruction) :
    Option (Except PyExc (Option Value)) :=
  runLoop cv (fuelFor instructions) ⟨pyListCopy instructions, [], [], 0⟩

/-- `_parse_instructions(closure_vars, instructions)`: an Expression-Model
node (`some`), a parse failure (`none`), or a raised exception.  The
`getD` default is dead code: `parseCore` is proven total below. -/
def _parse_instructions (cv : ClosureVars) (instructions : List Instruction) :
    Except PyExc (Option Value) :=
  (parseCore cv instructions).getD (.ok none)

/-- The call boundary of `_parse_instructions` seen from the caller: the
result together with the caller's instruction list after the call (the
function rebinds its local name to the working copy at line 170, so the
caller's list is returned unchanged). -/
def parseInstructionsCall (cv : ClosureVars) (instructions : List Instruction) :
    Except PyExc (Option Value) × List Instruction :=
  (_parse_instructions cv instructions, instructions)

/-- The opcode vocabulary handled by the dispatch (everything with a
branch in the source's `elif` chain). -/
def supportedOp (op : String) : Bool :=
  op = "RETURN_VALUE" || op = "LOAD_CONST" || op = "LOAD_FAST" ||
  op = "BUILD_LIST" || op = "BUILD_TUPLE" || op = "BUILD_SET" ||
  op = "BUILD_MAP" || op = "BUILD_CONST_KEY_MAP" ||
  op = "LOAD_DEREF" || op = "LOAD_METHOD" || op = "LOAD_ATTR" ||
  op = "LOAD_GLOBAL" ||
  op = "CALL_METHOD" || op = "CALL_FUNCTION" || op = "CALL_FUNCTION_KW" ||
  strStartsWith op "BINARY_" || strStartsWith op "INPLACE_" || op = "COMPARE_OP" ||
  op = "POP_JUMP_IF_FALSE"

/-! ## The value tracer `_trace_value` -/

/-- Join with `", "` (Python `", ".join`). -/
def joinComma (xs : List String) : String := String.intercalate ", " xs

/-- The quoted, comma-joined parameter names of a lambda rendering, or
`'no arguments'` when the join is empty (the source's falsy-string `or`). -/
def lambdaParams (vars : List String) : String :=
  let joined := joinComma (vars.map (fun x => "'" ++ x ++ "'"))
  if joined = "" then "no arguments" else joined

/-- `_trace_value(inp, wrap_str, include_id)`: convert a value to its
string representation, following the source's dispatch order.  The fuel
only bounds the recursion depth (each recursive call decrements it); it is
an embedding artifact chosen large enough at every use.  The result is
fallible because `_parse_instructions` invoked on a lambda argument can
raise, and that exception propagates through `_trace_value`. -/
def _trace_value : Nat → Value → Bool → Bool → Except PyExc String
  | 0, _, _, _ => .ok "<max depth exceeded>"
  | fuel + 1, inp, wrapStr, includeId =>
    match inp with
    | .strV s => .ok (if wrapStr then "'" ++ s ++ "'" else s)
    | .obj m q cid d =>
      match alistFind "_fe_traceability_summary" d with
      | some (.strV s) => .ok s
      | some v => .ok (pyScalarStr v)
      | none =>
        let idStr := if includeId then " (id: " ++ toString cid ++ ")" else ""
        .ok ("an instance of " ++ m ++ "." ++ q ++ idStr)
    | .intV n => .ok (toString n)
    | .boolV b => .ok (if b then "True" else "False")
    | .none_ => .ok "None"
    | .lam vars instrs nl gl bl =>
      match _parse_instructions ⟨nl, gl, bl⟩ instrs with
      | .error e => .error e
      | .ok none => .ok ("a lambda function passing " ++ lambdaParams vars)
      | .ok (some d) =>
        match _trace_value fuel d wrapStr includeId with
        | .error e => .error e
        | .ok t =>
          .ok ("a lambda function passing " ++ lambdaParams vars ++ " to: " ++ t)
    | .pyFunc m q _ _ => .ok (m ++ "." ++ q)
    | .command l r c =>
      match _trace_value fuel l wrapStr includeId with
      | .error e => .error e
      | .ok ls =>
        match _trace_value fuel r wrapStr includeId with
        | .error e => .error e
        | .ok rs => .ok (ls ++ " " ++ c ++ " " ++ rs)
    | .condition l r c =>
      match _trace_value fuel l wrapStr includeId with
      | .error e => .error e
      | .ok ls =>
        match _trace_value fuel c wrapStr includeId with
        | .error e => .error e
        | .ok cs =>
          match _trace_value fuel r wrapStr includeId with
          | .error e => .error e
          | .ok rs => .ok (ls ++ " if " ++ cs ++ " else " ++ rs)
    | .boundFn f a =>
      match _trace_value fuel f wrapStr false with
      | .error e => .error e
      | .ok fs =>
        match _trace_value fuel a false includeId with
        | .error e => .error e
        | .ok as2 => .ok (fs ++ " invoked with: " ++ as2)
    | .boundArguments pairs =>
      match pairs.mapM (fun p =>
          (match _trace_value fuel (.strV p.1) false includeId with
          | .error e => .error e
          | .ok ks =>
            match _trace_value fuel p.2 true true with
            | .error e => .error e
            | .ok vs => .ok (ks ++ "=" ++ vs) : Except PyExc String)) with
      | .error e => .error e
      | .ok ss => .ok ("\x7b" ++ joinComma ss ++ "\x7d")
    | .varWrap v => .ok v
    | .listV xs =>
      match xs.mapM (fun x => _trace_value fuel x wrapStr includeId) with
      | .error e => .error e
      | .ok ss => .ok ("[" ++ joinComma ss ++ "]")
    | .tupleV xs =>
      match xs.mapM (fun x => _trace_value fuel x wrapStr includeId) with
      | .error e => .error e
      | .ok ss => .ok ("(" ++ joinComma ss ++ ")")
    | .setV xs =>
      match xs.mapM (fun x => _trace_value fuel x wrapStr includeId) with
      | .error e => .error e
      | .ok ss => .ok ("\x7b" ++ joinComma ss ++ "\x7d")
    | .mapV pairs =>
      match pairs.mapM (fun p =>
          (match _trace_value fuel p.1 wrapStr includeId with
          | .error e => .error e
          | .ok ks =>
            match _trace_value fuel p.2 true true with
            | .error e => .error e
            | .ok vs => .ok (ks ++ "=" ++ vs) : Except PyExc String)) with
      | .error e => .error e
      | .ok ss => .ok ("\x7b" ++ joinComma ss ++ "\x7d")

/-! ## The `traceable` decorator -/

/-- A whitelist/blacklist argument of `traceable`: a bare string or a
tuple of strings. -/
inductive WBArg where
  | str (v : String)
  | tup (vs : List String)

/-- The string-to-one-tuple normalization at the top of `traceable`. -/
def normalizeWB : WBArg → List String
  | .str v => [v]
  | .tup vs => vs

/-- The configuration captured by the decorator's closure after
normalization. -/
structure TraceableCfg where
  whitelist : List String
  blacklist : List String

/-- `traceable(whitelist, blacklist)`: normalize bare strings to
one-tuples, then reject the configuration (a `ValueError`, raised at
decoration time before any instance exists) when both lists are truthy
(non-empty). -/
def traceable (whitelist blacklist : WBArg) : Except PyExc TraceableCfg :=
  let wl := normalizeWB whitelist
  let bl := normalizeWB blacklist
  if wl ≠ [] ∧ bl ≠ [] then .error .valueError
  else .ok ⟨wl, bl⟩

/-- The wrapper's own bookkeeping attribute names, always appended to the
per-instance blacklist. -/
def bookkeepingKeys : List String := ["_fe_state_whitelist", "_fe_state_blacklist"]

/-- The first stage of the injected `init` of a decorated class: store
the whitelist tuple and the blacklist-plus-bookkeeping tuple on the
instance when absent. -/
def initDicts (cfg : TraceableCfg) (dict0 : List (String × Value)) :
    List (String × Value) :=
  let d1 := if alistHas "_fe_state_whitelist" dict0 then dict0
    else alistSet "_fe_state_whitelist"
      (Value.tupleV (cfg.whitelist.map Value.strV)) dict0
  if alistHas "_fe_state_blacklist" d1 then d1
  else alistSet "_fe_state_blacklist"
    (Value.tupleV ((cfg.blacklist ++ bookkeepingKeys).map Value.strV)) d1

/-- The summary-capture stage of the injected `init`: only when no summary
is cached, bind the constructor arguments (`self` first) against
`base_init`'s signature, drop `self`, render the `_BoundFn` and cache it. -/
def traceableInit (cfg : TraceableCfg) (sigParams : List String)
    (sigDefaults : List (String × Value)) (fuel : Nat)
    (base : List (String × Value) → List (String × Value))
    (module qualname : String) (cid : Nat) (dict0 : List (String × Value))
    (posArgs : List Value) (kwArgs : List (String × Value)) :
    Except PyExc (List (String × Value)) :=
  if alistHas "_fe_traceability_summary" (initDicts cfg dict0) then
    .ok (base (initDicts cfg dict0))
  else
    match sigBind sigParams sigDefaults
        (Value.obj module qualname cid (initDicts cfg dict0) :: posArgs)
        kwArgs with
    | .error e => .error e
    | .ok bound =>
      match _trace_value fuel
          (.boundFn (.obj module qualname cid (initDicts cfg dict0))
            (.mapV ((alistPop "self" bound).map
              (fun p => (Value.strV p.1, p.2)))))
          true true with
      | .error e => .error e
      | .ok s =>
        .ok (base (alistSet "_fe_traceability_summary" (.strV s)
          (initDicts cfg dict0)))

/-- `fe_summary` of a decorated instance: prefix the cached summary
attribute (an `AttributeError` when the instance was never constructed). -/
def fe_summary (dict : List (String × Value)) : Except PyExc String :=
  match alistFind "_fe_traceability_summary" dict with
  | none => .error .attributeError
  | some v => .ok ("This experiment used " ++ pyScalarStr v)

/-- The whitelist dict-comprehension of `fe_state`
(`{key: state_dict[key] for key in whitelist}`): a missing key is the
`KeyError` raised at call time. -/
def whitelistComp (st acc : List (String × Value)) :
    List String → Except PyExc (List (String × Value))
  | [] => .ok acc
  | k :: rest =>
    match alistFind k st with
    | none => .error (.keyError k)
    | some v => whitelistComp st (alistSet k v acc) rest

/-- `fe_state` of a decorated instance: snapshot the attribute dict; if
the instance's `_fe_state_whitelist` is truthy, restrict to the
decorator-closure `whitelist` names (missing names raise `KeyError`);
then pop every name in the instance's `_fe_state_blacklist` (which the
init extended with the bookkeeping keys).  Note the source reads the
closure variable `whitelist` inside the comprehension but tests the
instance attribute, so both appear here. -/
def fe_state (closureWhitelist : List String) (dict : List (String × Value)) :
    Except PyExc (List (String × Value)) :=
  match alistFind "_fe_state_whitelist" dict with
  | none => .error .attributeError
  | some wlv =>
    let st0 :=
      if pyTruthy wlv then whitelistComp dict [] closureWhitelist
      else .ok dict
    match st0 with
    | .error e => .error e
    | .ok st1 =>
      match alistFind "_fe_state_blacklist" dict with
      | none => .error .attributeError
      | some blv =>
        match strSeqOf blv with
        | none => .error .typeError
        | some bls => .ok (bls.foldl (fun acc k => alistPop k acc) st1)

/-! ## Concrete inputs used by the round-trip and failure scenarios -/

/-- An empty closure scope (a lambda capturing nothing). -/
def cv0 : ClosureVars := ⟨[], [], []⟩

/-- The instruction stream of `lambda x, y: x if x > y else y`. -/
def streamC5 : List Instruction :=
  [⟨"LOAD_FAST", .s "x"⟩, ⟨"LOAD_FAST", .s "y"⟩, ⟨"COMPARE_OP", .s ">"⟩,
   ⟨"POP_JUMP_IF_FALSE", .i 10⟩, ⟨"LOAD_FAST", .s "x"⟩,
   ⟨"RETURN_VALUE", .none_⟩, ⟨"LOAD_FAST", .s "y"⟩, ⟨"RETURN_VALUE", .none_⟩]

/-- The expected reconstruction of `streamC5`:
`Condition(left=VarRef("x"), right=VarRef("y"), predicate=Command(VarRef("x"), VarRef("y"), ">"))`. -/
def condNodeC5 : Value :=
  .condition (.varWrap "x") (.varWrap "y")
    (.command (.varWrap "x") (.varWrap "y") ">")

/-- The summary text the code actually produces for
`Widget(name="w", count=3)` in module `__main__`. -/
def widgetSummary : String :=
  "an instance of __main__.Widget invoked with: \x7bname='w', count=3\x7d"

/-- The instance dict after constructing `Widget(name="w", count=3)`
through the wrapper (no whitelist, no blacklist, identity base
constructor). -/
def widgetDict : List (String × Value) :=
  [("_fe_state_whitelist", .tupleV []),
   ("_fe_state_blacklist",
    .tupleV [.strV "_fe_state_whitelist", .strV "_fe_state_blacklist"]),
   ("_fe_traceability_summary", .strV widgetSummary)]

/-- An instance of a class wrapped with
`whitelist=("_fe_state_whitelist",)`, as the injected init leaves it. -/
def dictC8 : List (String × Value) :=
  [("_fe_state_whitelist", .tupleV [.strV "_fe_state_whitelist"]),
   ("_fe_state_blacklist",
    .tupleV [.strV "_fe_state_whitelist", .strV "_fe_state_blacklist"])]

/-- An instance of a class wrapped with `blacklist=("secret",)`, carrying
a blacklisted attribute and an ordinary one. -/
def dictC3 : List (String × Value) :=
  [("_fe_state_whitelist", .tupleV []),
   ("_fe_state_blacklist",
    .tupleV [.strV "secret", .strV "_fe_state_whitelist",
             .strV "_fe_state_blacklist"]),
   ("secret", .intV 1), ("a", .intV 2)]

/-- An instance of a class wrapped with `whitelist=("a",)` whose state
contains the whitelisted attribute. -/
def dictC8w : List (String × Value) :=
  [("_fe_state_whitelist", .tupleV [.strV "a"]),
   ("_fe_state_blacklist",
    .tupleV [.strV "_fe_state_whitelist", .strV "_fe_state_blacklist"]),
   ("a", .intV 1)]

/-- The same wrapped instance with the whitelisted attribute missing. -/
def dictC8m : List (String × Value) :=
  [("_fe_state_whitelist", .tupleV [.strV "a"]),
   ("_fe_state_blacklist",
    .tupleV [.strV "_fe_state_whitelist", .strV "_fe_state_blacklist"])]

/-! ## Length accounting for the machine's pops -/

theorem pyIdx_lt {len : Nat} {i : Int} {n : Nat} (h : pyIdx len i = some n) :
    n < len := by
  unfold pyIdx at h
  by_cases h1 : i < 0 <;> simp only [h1, if_true, if_false, ite_true, ite_false] at h <;>
    split at h <;> rename_i hc <;> first
      | (injection h with h2; omega)
      | cases h

theorem pyPopAt_length {α : Type} {l : List α} {i : Int} {a : α} {l2 : List α}
    (h : pyPopAt l i = some (a, l2)) : l2.length + 1 = l.length := by
  unfold pyPopAt at h
  cases hi : pyIdx l.length i with
  | none => rw [hi] at h; cases h
  | some n =>
    rw [hi] at h
    dsimp only at h
    cases hg : l.get? n with
    | none => rw [hg] at h; cases h
    | some b =>
      rw [hg] at h
      cases h
      have hlt : n < l.length := pyIdx_lt hi
      simp [List.length_take, List.length_drop]
      omega

theorem pyPopLast_length {α : Type} {l : List α} {a : α} {l2 : List α}
    (h : pyPopLast l = some (a, l2)) : l2.length + 1 = l.length := by
  unfold pyPopLast at h
  cases hg : l.getLast? with
  | none => rw [hg] at h; cases h
  | some b =>
    rw [hg] at h
    cases h
    have hne : l ≠ [] := by
      intro hnil
      rw [hnil] at hg
      cases hg
    have hpos : 0 < l.length := List.length_pos.mpr hne
    simp [List.length_dropLast]
    omega

theorem popN_spec {n : Nat} {args : List Value} {work : List Instruction}
    {idx : Int} {acc : List Value} {a2 : List Value} {w2 : List Instruction}
    {i2 : Int} (h : popN n args work idx = some (acc, a2, w2, i2)) :
    a2.length + n = args.length ∧ w2.length + n = work.length ∧
    i2 = idx - n := by
  induction n generalizing args work idx acc with
  | zero =>
    unfold popN at h
    cases h
    refine ⟨rfl, rfl, by omega⟩
  | succ m ih =>
    unfold popN at h
    cases hp : pyPopLast args with
    | none => rw [hp] at h; cases h
    | some p =>
      obtain ⟨v, args1⟩ := p
      rw [hp] at h
      dsimp only at h
      cases hw : pyPopAt work (idx - 1) with
      | none => rw [hw] at h; cases h
      | some q =>
        obtain ⟨x, work1⟩ := q
        rw [hw] at h
        dsimp only at h
        cases hr : popN m args1 work1 (idx - 1) with
        | none => rw [hr] at h; cases h
        | some r =>
          obtain ⟨acc1, a21, w21, i21⟩ := r
          rw [hr] at h
          dsimp only at h
          cases h
          have h1 := pyPopLast_length hp
          have h2 := pyPopAt_length hw
          have h3 := ih hr
          exact ⟨by omega, by omega, by omega⟩

theorem popPairs_spec {n : Nat} {args : List Value} {work : List Instruction}
    {idx : Int} {acc0 pairs : List (Value × Value)} {a2 : List Value}
    {w2 : List Instruction} {i2 : Int}
    (h : popPairs n args work idx acc0 = some (pairs, a2, w2, i2)) :
    a2.length + 2 * n = args.length ∧ w2.length + 2 * n = work.length ∧
    i2 = idx - 2 * n := by
  induction n generalizing args work idx acc0 with
  | zero =>
    unfold popPairs at h
    cases h
    refine ⟨by omega, by omega, by omega⟩
  | succ m ih =>
    unfold popPairs at h
    cases h1 : pyPopLast args with
    | none => rw [h1] at h; cases h
    | some p1 =>
      obtain ⟨v, args1⟩ := p1
      rw [h1] at h
      dsimp only at h
      cases h2 : pyPopLast args1 with
      | none => rw [h2] at h; cases h
      | some p2 =>
        obtain ⟨k, args2⟩ := p2
        rw [h2] at h
        dsimp only at h
        cases h3 : pyPopAt work (idx - 1) with
        | none => rw [h3] at h; cases h
        | some q1 =>
          obtain ⟨x1, work1⟩ := q1
          rw [h3] at h
          dsimp only at h
          cases h4 : pyPopAt work1 (idx - 2) with
          | none => rw [h4] at h; cases h
          | some q2 =>
            obtain ⟨x2, work2⟩ := q2
            rw [h4] at h
            dsimp only at h
            have l1 := pyPopLast_length h1
            have l2 := pyPopLast_length h2
            have l3 := pyPopAt_length h3
            have l4 := pyPopAt_length h4
            have l5 := ih h
            exact ⟨by omega, by omega, by omega⟩

theorem foldAttrs_length {fuel : Nat} {f : Value} {work : List Instruction}
    {idx : Int} {v : Value} {w2 : List Instruction}
    (h : foldAttrs fuel f work idx = .ok (v, w2)) :
    w2.length ≤ work.length := by
  induction fuel generalizing f work with
  | zero =>
    unfold foldAttrs at h
    cases h
    exact Nat.le_refl _
  | succ m ih =>
    unfold foldAttrs at h
    split at h
    · cases hg : pyGetL work (idx + 1) with
      | none => rw [hg] at h; cases h
      | some nxt =>
        rw [hg] at h
        dsimp only at h
        split at h
        · cases ha : pyGetattr f nxt.arg with
          | error e => rw [ha] at h; cases h
          | ok f2 =>
            rw [ha] at h
            cases hp : pyPopAt work (idx + 1) with
            | none => rw [hp] at h; cases h
            | some q =>
              obtain ⟨x, work2⟩ := q
              rw [hp] at h
              dsimp only at h
              have hl := pyPopAt_length hp
              have hr := ih h
              omega
        · cases h; exact Nat.le_refl _
    · cases h; exact Nat.le_refl _

theorem takeKwargs_args {acc : List (String × Value)} {fnArgs : List Value}
    {names : List String} {kws : List (String × Value)} {fa2 : List Value}
    (h : takeKwargs acc fnArgs names = .ok (kws, fa2)) :
    fa2.length ≤ fnArgs.length := by
  induction names generalizing acc fnArgs with
  | nil =>
    unfold takeKwargs at h
    cases h
    exact Nat.le_refl _
  | cons n rest ih =>
    unfold takeKwargs at h
    cases hp : pyPopLast fnArgs with
    | none => rw [hp] at h; cases h
    | some p =>
      obtain ⟨v, fa⟩ := p
      rw [hp] at h
      dsimp only at h
      have h1 := pyPopLast_length hp
      have h2 := ih h
      omega

/-! ## Every loop iteration strictly decreases the measure `2*len - idx` -/

theorem toStep_cont {x : Except PyExc MState} {s2 : MState}
    (h : toStep x = .cont s2) : x = .ok s2 := by
  cases x with
  | ok s => cases h; rfl
  | error e => cases h

theorem stepReturn_cont {s s2 : MState} (h : stepReturn s = .cont s2) :
    2 * (s2.work.length : Int) - s2.idx ≤ 2 * s.work.length - s.idx - 1 := by
  unfold stepReturn at h
  cases hg : s.conds.getLast? with
  | none =>
    rw [hg] at h
    dsimp only at h
    split at h <;> cases h
  | some cc =>
    rw [hg] at h
    dsimp only at h
    cases hp : pyPopLast s.args with
    | none => rw [hp] at h; cases h
    | some p =>
      obtain ⟨arg, args1⟩ := p
      rw [hp] at h
      dsimp only at h
      cases hw : pyPopAt s.work (s.idx - 1) with
      | none => rw [hw] at h; cases h
      | some q =>
        obtain ⟨x, work1⟩ := q
        rw [hw] at h
        dsimp only at h
        obtain ⟨l, r, c⟩ := cc
        have hw1 := pyPopAt_length hw
        dsimp only at h
        split at h
        · cases hw2 : pyPopAt work1 (s.idx - 2) with
          | none => rw [hw2] at h; cases h
          | some q2 =>
            obtain ⟨x2, work2⟩ := q2
            rw [hw2] at h
            dsimp only at h
            cases h
            have hw3 := pyPopAt_length hw2
            dsimp only
            omega
        · split at h <;> (cases h; dsimp only; omega)

theorem buildBranch_cont {s : MState} {ins : Instruction} {s2 : MState}
    (h : buildBranch s ins = .ok s2) :
    2 * (s2.work.length : Int) - s2.idx ≤ 2 * s.work.length - s.idx - 1 := by
  unfold buildBranch at h
  cases hc : constToCount ins.arg with
  | none => rw [hc] at h; cases h
  | some n =>
    rw [hc] at h
    dsimp only at h
    cases hr : popN n s.args s.work s.idx with
    | none => rw [hr] at h; cases h
    | some r =>
      obtain ⟨xs, args2, work2, idx2⟩ := r
      rw [hr] at h
      dsimp only at h
      cases h
      have hs := popN_spec hr
      dsimp only
      omega

theorem buildMapBranch_cont {s : MState} {ins : Instruction} {s2 : MState}
    (h : buildMapBranch s ins = .ok s2) :
    2 * (s2.work.length : Int) - s2.idx ≤ 2 * s.work.length - s.idx - 1 := by
  unfold buildMapBranch at h
  cases hc : constToCount ins.arg with
  | none => rw [hc] at h; cases h
  | some n =>
    rw [hc] at h
    dsimp only at h
    cases hr : popPairs n s.args s.work s.idx [] with
    | none => rw [hr] at h; cases h
    | some r =>
      obtain ⟨pairs, args2, work2, idx2⟩ := r
      rw [hr] at h
      dsimp only at h
      cases h
      have hs := popPairs_spec hr
      dsimp only
      omega

theorem bckmBranch_cont {s : MState} {ins : Instruction} {s2 : MState}
    (h : bckmBranch s ins = .ok s2) :
    2 * (s2.work.length : Int) - s2.idx ≤ 2 * s.work.length - s.idx - 1 := by
  unfold bckmBranch at h
  cases h1 : pyPopLast s.args with
  | none => rw [h1] at h; cases h
  | some p =>
    obtain ⟨kv, args1⟩ := p
    rw [h1] at h
    dsimp only at h
    cases h2 : pyPopAt s.work (s.idx - 1) with
    | none => rw [h2] at h; cases h
    | some q =>
      obtain ⟨x, work1⟩ := q
      rw [h2] at h
      dsimp only at h
      cases hc : constToCount ins.arg with
      | none => rw [hc] at h; cases h
      | some n =>
        rw [hc] at h
        dsimp only at h
        cases hr : popN n args1 work1 (s.idx - 1) with
        | none => rw [hr] at h; cases h
        | some r =>
          obtain ⟨vals, args2, work2, idx2⟩ := r
          rw [hr] at h
          dsimp only at h
          cases hit : iterableOf kv with
          | none => rw [hit] at h; cases h
          | some keys =>
            rw [hit] at h
            dsimp only at h
            cases h
            have hl2 := pyPopAt_length h2
            have hs := popN_spec hr
            dsimp only
            omega

theorem chainBranch_cont {cv : ClosureVars} {s : MState} {ins : Instruction}
    {s2 : MState} (h : chainBranch cv s ins = .ok s2) :
    2 * (s2.work.length : Int) - s2.idx ≤ 2 * s.work.length - s.idx - 1 := by
  unfold chainBranch at h
  cases hf : foldAttrs s.work.length (resolve3 cv ins.arg) s.work s.idx with
  | error e => rw [hf] at h; cases h
  | ok r =>
    obtain ⟨f, work2⟩ := r
    rw [hf] at h
    dsimp only at h
    cases h
    have hl := foldAttrs_length hf
    dsimp only
    omega

theorem kwStageOf_spec {s : MState} {ins : Instruction} {names : List String}
    {args1 : List Value} {work1 : List Instruction} {idx1 : Int}
    (h : kwStageOf s ins = .ok (names, args1, work1, idx1)) :
    2 * (work1.length : Int) - idx1 ≤ 2 * s.work.length - s.idx := by
  unfold kwStageOf at h
  split at h
  · cases h1 : pyPopLast s.args with
    | none => rw [h1] at h; cases h
    | some p =>
      obtain ⟨kn, a1⟩ := p
      rw [h1] at h
      dsimp only at h
      cases h2 : pyPopAt s.work (s.idx - 1) with
      | none => rw [h2] at h; cases h
      | some q =>
        obtain ⟨x, w1⟩ := q
        rw [h2] at h
        dsimp only at h
        cases h3 : strSeqOf kn with
        | none => rw [h3] at h; cases h
        | some ns =>
          rw [h3] at h
          dsimp only at h
          cases h
          have hl := pyPopAt_length h2
          omega
  · cases h
    omega

theorem callBranch_cont {s : MState} {ins : Instruction} {s2 : MState}
    (h : callBranch s ins = .ok s2) :
    2 * (s2.work.length : Int) - s2.idx ≤ 2 * s.work.length - s.idx - 1 := by
  unfold callBranch at h
  cases hk : kwStageOf s ins with
  | error e => rw [hk] at h; cases h
  | ok t =>
    obtain ⟨names, args1, work1, idx1⟩ := t
    rw [hk] at h
    dsimp only at h
    have hm := kwStageOf_spec hk
    cases hc : constToCount ins.arg with
    | none => rw [hc] at h; cases h
    | some n =>
      rw [hc] at h
      dsimp only at h
      cases hr : popN n args1 work1 idx1 with
      | none => rw [hr] at h; cases h
      | some r =>
        obtain ⟨fnArgs, args2, work2, idx2⟩ := r
        rw [hr] at h
        dsimp only at h
        cases hkw : takeKwargs [] fnArgs names.reverse with
        | error e => rw [hkw] at h; cases h
        | ok kr =>
          obtain ⟨kws, fnArgs2⟩ := kr
          rw [hkw] at h
          dsimp only at h
          cases hp : pyPopLast args2 with
          | none => rw [hp] at h; cases h
          | some p =>
            obtain ⟨function, args3⟩ := p
            rw [hp] at h
            dsimp only at h
            cases hw : pyPopAt work2 (idx2 - 1) with
            | none => rw [hw] at h; cases h
            | some q =>
              obtain ⟨x, work3⟩ := q
              rw [hw] at h
              dsimp only at h
              cases hsig : signatureOf function with
              | error e => rw [hsig] at h; cases h
              | ok sg =>
                obtain ⟨params, defaults⟩ := sg
                rw [hsig] at h
                dsimp only at h
                cases hb : sigBind params defaults fnArgs2 kws with
                | error e => rw [hb] at h; cases h
                | ok bound =>
                  rw [hb] at h
                  dsimp only at h
                  cases h
                  have hs := popN_spec hr
                  have hwl := pyPopAt_length hw
                  dsimp only
                  omega

theorem stepBinary_cont {s : MState} {ins : Instruction} {s2 : MState}
    (h : stepBinary s ins = .cont s2) :
    2 * (s2.work.length : Int) - s2.idx ≤ 2 * s.work.length - s.idx - 1 := by
  unfold stepBinary at h
  cases ht : alistFind (commandOf ins) _CommandTable with
  | none => rw [ht] at h; cases h
  | some sym =>
    rw [ht] at h
    dsimp only at h
    cases h1 : pyPopLast s.args with
    | none => rw [h1] at h; cases h
    | some p =>
      obtain ⟨right, args1⟩ := p
      rw [h1] at h
      dsimp only at h
      cases h2 : pyPopAt s.work (s.idx - 1) with
      | none => rw [h2] at h; cases h
      | some q =>
        obtain ⟨x1, work1⟩ := q
        rw [h2] at h
        dsimp only at h
        cases h3 : pyPopLast args1 with
        | none => rw [h3] at h; cases h
        | some p2 =>
          obtain ⟨left, args2⟩ := p2
          rw [h3] at h
          dsimp only at h
          cases h4 : pyPopAt work1 (s.idx - 2) with
          | none => rw [h4] at h; cases h
          | some q2 =>
            obtain ⟨x2, work2⟩ := q2
            rw [h4] at h
            dsimp only at h
            cases h
            have hl2 := pyPopAt_length h2
            have hl4 := pyPopAt_length h4
            dsimp only
            omega

theorem stepPJIF_cont {s : MState} {s2 : MState} (h : stepPJIF s = .cont s2) :
    2 * (s2.work.length : Int) - s2.idx ≤ 2 * s.work.length - s.idx - 1 := by
  unfold stepPJIF at h
  cases h1 : pyPopLast s.args with
  | none => rw [h1] at h; cases h
  | some p =>
    obtain ⟨c, args1⟩ := p
    rw [h1] at h
    dsimp only at h
    cases h2 : pyPopAt s.work (s.idx - 1) with
    | none => rw [h2] at h; cases h
    | some q =>
      obtain ⟨x, work1⟩ := q
      rw [h2] at h
      dsimp only at h
      cases h
      have hl2 := pyPopAt_length h2
      dsimp only
      omega

theorem stepDispatch_cont {cv : ClosureVars} {s : MState} {ins : Instruction}
    {s2 : MState} (h : stepDispatch cv s ins = .cont s2) :
    2 * (s2.work.length : Int) - s2.idx ≤ 2 * s.work.length - s.idx - 1 := by
  unfold stepDispatch at h
  by_cases c1 : ins.opname = "RETURN_VALUE"
  · rw [if_pos c1] at h
    exact stepReturn_cont h
  rw [if_neg c1] at h
  by_cases c2 : ins.opname = "LOAD_CONST"
  · rw [if_pos c2] at h
    cases h
    dsimp only
    omega
  rw [if_neg c2] at h
  by_cases c3 : ins.opname = "LOAD_FAST"
  · rw [if_pos c3] at h
    cases h
    dsimp only
    omega
  rw [if_neg c3] at h
  by_cases c4 : ins.opname = "BUILD_LIST" ∨ ins.opname = "BUILD_TUPLE" ∨
      ins.opname = "BUILD_SET"
  · rw [if_pos c4] at h
    exact buildBranch_cont (toStep_cont h)
  rw [if_neg c4] at h
  by_cases c5 : ins.opname = "BUILD_MAP"
  · rw [if_pos c5] at h
    exact buildMapBranch_cont (toStep_cont h)
  rw [if_neg c5] at h
  by_cases c6 : ins.opname = "BUILD_CONST_KEY_MAP"
  · rw [if_pos c6] at h
    exact bckmBranch_cont (toStep_cont h)
  rw [if_neg c6] at h
  by_cases c7 : ins.opname = "LOAD_DEREF"
  · rw [if_pos c7] at h
    by_cases c7a : _deref_is_callable cv ins = true
    · rw [if_pos c7a] at h
      exact chainBranch_cont (toStep_cont h)
    rw [if_neg c7a] at h
    cases hg2 : pyGetL s.work (s.idx + 1) with
    | none => rw [hg2] at h; cases h
    | some nxt =>
      rw [hg2] at h
      dsimp only at h
      by_cases c7b : nxt.opname = "LOAD_METHOD" ∨ nxt.opname = "LOAD_ATTR"
      · rw [if_pos c7b] at h
        exact chainBranch_cont (toStep_cont h)
      · rw [if_neg c7b] at h
        cases h
        dsimp only
        omega
  rw [if_neg c7] at h
  by_cases c8 : ins.opname = "LOAD_METHOD" ∨ ins.opname = "LOAD_ATTR" ∨
      ins.opname = "LOAD_GLOBAL"
  · rw [if_pos c8] at h
    exact chainBranch_cont (toStep_cont h)
  rw [if_neg c8] at h
  by_cases c9 : ins.opname = "CALL_METHOD" ∨ ins.opname = "CALL_FUNCTION" ∨
      ins.opname = "CALL_FUNCTION_KW"
  · rw [if_pos c9] at h
    exact callBranch_cont (toStep_cont h)
  rw [if_neg c9] at h
  by_cases c10 : strStartsWith ins.opname "BINARY_" = true ∨
      strStartsWith ins.opname "INPLACE_" = true ∨ ins.opname = "COMPARE_OP"
  · rw [if_pos c10] at h
    exact stepBinary_cont h
  rw [if_neg c10] at h
  by_cases c11 : ins.opname = "POP_JUMP_IF_FALSE"
  · rw [if_pos c11] at h
    exact stepPJIF_cont h
  · rw [if_neg c11] at h
    cases h

theorem step_cont {cv : ClosureVars} {s s2 : MState}
    (h : step cv s = .cont s2) :
    2 * (s2.work.length : Int) - s2.idx ≤ 2 * s.work.length - s.idx - 1 := by
  unfold step at h
  cases hg : pyGetL s.work s.idx with
  | none => rw [hg] at h; cases h
  | some ins =>
    rw [hg] at h
    exact stepDispatch_cont h

/-- The loop never exhausts fuel exceeding the measure `2*len - idx`. -/
theorem runLoop_total {cv : ClosureVars} :
    ∀ (fuel : Nat) (s : MState),
      2 * (s.work.length : Int) - s.idx < fuel →
      (runLoop cv fuel s).isSome := by
  intro fuel
  induction fuel with
  | zero =>
    intro s hm
    unfold runLoop
    split
    · rename_i hlt
      omega
    · simp
  | succ m ih =>
    intro s hm
    unfold runLoop
    split
    · rename_i hlt
      cases hs : step cv s with
      | done r => simp
      | cont s2 =>
        have hd := step_cont hs
        exact ih s2 (by omega)
    · simp

/-- `_parse_instructions` always completes within the wrapper's fuel. -/
theorem parseCore_total (cv : ClosureVars) (instructions : List Instruction) :
    (parseCore cv instructions).isSome := by
  unfold parseCore
  apply runLoop_total
  unfold fuelFor
  have h1 : (pyListCopy instructions).length = instructions.length := by
    unfold pyListCopy
    simp
  dsimp only
  rw [h1]
  omega

/-! ## Association-list facts used by the `fe_state` claims -/

theorem alistFind_set_self {α : Type} (k : String) (v : α)
    (d : List (String × α)) : alistFind k (alistSet k v d) = some v := by
  induction d with
  | nil => simp [alistSet, alistFind]
  | cons p rest ih =>
    obtain ⟨k2, v2⟩ := p
    by_cases hk : k2 = k
    · subst hk
      simp [alistSet, alistFind]
    · simp [alistSet, alistFind, hk, ih]

theorem alistFind_set_ne {α : Type} {k k2 : String} (hne : k2 ≠ k) (v : α)
    (d : List (String × α)) : alistFind k (alistSet k2 v d) = alistFind k d := by
  induction d with
  | nil => simp [alistSet, alistFind, hne]
  | cons p rest ih =>
    obtain ⟨k3, v3⟩ := p
    by_cases hk : k3 = k2
    · subst hk
      simp [alistSet, alistFind, hne, ih]
    · simp [alistSet, alistFind, hk, ih]

theorem alistFind_pop_self {α : Type} (k : String) (d : List (String × α)) :
    alistFind k (alistPop k d) = none := by
  induction d with
  | nil => rfl
  | cons p rest ih =>
    obtain ⟨k2, v2⟩ := p
    by_cases hk : k2 = k
    · simpa [alistPop, hk] using ih
    · simp [alistPop, alistFind, hk, ih]

theorem alistFind_pop_ne {α : Type} {k k2 : String} (hne : k ≠ k2)
    (d : List (String × α)) : alistFind k (alistPop k2 d) = alistFind k d := by
  induction d with
  | nil => rfl
  | cons p rest ih =>
    obtain ⟨k3, v3⟩ := p
    by_cases h3 : k3 = k2
    · subst h3
      have h3k : k3 ≠ k := fun he => hne (he.symm.trans rfl)
      simp [alistPop, alistFind, h3k, ih]
    · by_cases h3k : k3 = k
      · subst h3k
        simp [alistPop, alistFind, h3, ih]
      · simp [alistPop, alistFind, h3, h3k, ih]

theorem alistFind_foldl_pop_none {α : Type} {k : String} (ks : List String)
    (st : List (String × α)) (h : alistFind k st = none) :
    alistFind k (ks.foldl (fun acc k2 => alistPop k2 acc) st) = none := by
  induction ks generalizing st with
  | nil => exact h
  | cons k3 r ih =>
    rw [List.foldl_cons]
    apply ih
    by_cases he : k = k3
    · subst he
      exact alistFind_pop_self k st
    · rw [alistFind_pop_ne he]
      exact h

theorem alistFind_foldl_pop_mem {α : Type} {k : String} {ks : List String}
    (hmem : k ∈ ks) (st : List (String × α)) :
    alistFind k (ks.foldl (fun acc k2 => alistPop k2 acc) st) = none := by
  induction ks generalizing st with
  | nil => cases hmem
  | cons k2 rest ih =>
    rw [List.foldl_cons]
    by_cases hk : k ∈ rest
    · exact ih hk _
    · have hk2 : k = k2 := by
        cases hmem with
        | head => rfl
        | tail _ h => exact absurd h hk
      subst hk2
      exact alistFind_foldl_pop_none rest _ (alistFind_pop_self k st)

theorem alistFind_foldl_pop_not_mem {α : Type} {k : String} {ks : List String}
    (hmem : k ∉ ks) (st : List (String × α)) :
    alistFind k (ks.foldl (fun acc k2 => alistPop k2 acc) st) = alistFind k st := by
  induction ks generalizing st with
  | nil => rfl
  | cons k2 rest ih =>
    have h1 : k ≠ k2 := fun he => hmem (by rw [he]; exact List.mem_cons_self _ _)
    have h2 : k ∉ rest := fun he => hmem (List.mem_cons_of_mem _ he)
    rw [List.foldl_cons, ih h2, alistFind_pop_ne h1]

theorem whitelistComp_has {st : List (String × Value)} {wl : List String}
    {acc res : List (String × Value)}
    (h : whitelistComp st acc wl = .ok res) (k : String) :
    alistHas k res = (wl.contains k || alistHas k acc) := by
  induction wl generalizing acc with
  | nil =>
    unfold whitelistComp at h
    cases h
    simp [List.contains]
  | cons k2 rest ih =>
    unfold whitelistComp at h
    cases hf : alistFind k2 st with
    | none => rw [hf] at h; cases h
    | some v =>
      rw [hf] at h
      dsimp only at h
      rw [ih h]
      by_cases hk : k = k2
      · subst hk
        simp [alistHas, alistFind_set_self, List.contains_cons]
      · have h2 : k2 ≠ k := fun he => hk he.symm
        simp [alistHas, alistFind_set_ne h2, List.contains_cons, hk]

theorem whitelistComp_ok_of_present {st : List (String × Value)}
    {wl : List String} (hall : ∀ k ∈ wl, alistHas k st = true)
    (acc : List (String × Value)) :
    ∃ res, whitelistComp st acc wl = .ok res := by
  induction wl generalizing acc with
  | nil => exact ⟨acc, rfl⟩
  | cons k2 rest ih =>
    have hk2 : alistHas k2 st = true := hall k2 (List.mem_cons_self _ _)
    unfold alistHas at hk2
    cases hf : alistFind k2 st with
    | none => rw [hf] at hk2; cases hk2
    | some v =>
      unfold whitelistComp
      rw [hf]
      dsimp only
      exact ih (fun k hk => hall k (List.mem_cons_of_mem _ hk)) _

theorem whitelistComp_error_of_missing {st : List (String × Value)}
    {wl : List String} {k : String} (hk : k ∈ wl)
    (hmiss : alistFind k st = none) (acc : List (String × Value)) :
    ∃ k2, whitelistComp st acc wl = .error (.keyError k2) := by
  induction wl generalizing acc with
  | nil => cases hk
  | cons k2 rest ih =>
    unfold whitelistComp
    cases hf : alistFind k2 st with
    | none => exact ⟨k2, rfl⟩
    | some v =>
      dsimp only
      have hkr : k ∈ rest := by
        cases hk with
        | head => rw [hf] at hmiss; cases hmiss
        | tail _ h => exact h
      exact ih hkr _

/-! ## Failure-path facts of the dispatch -/

theorem step_of_get {cv : ClosureVars} {s : MState} {ins : Instruction}
    (hget : pyGetL s.work s.idx = some ins) :
    step cv s = stepDispatch cv s ins := by
  unfold step
  rw [hget]

theorem runLoop_step_done {cv : ClosureVars} {s : MState} {fuel : Nat}
    {r : Except PyExc (Option Value)}
    (hlt : s.idx < (s.work.length : Int)) (hstep : step cv s = .done r) :
    runLoop cv (fuel + 1) s = some r := by
  unfold runLoop
  rw [if_pos hlt, hstep]

theorem runLoop_exit {cv : ClosureVars} {s : MState} {fuel : Nat}
    (hge : ¬ s.idx < (s.work.length : Int)) :
    runLoop cv fuel s = some (finalize s) := by
  cases fuel <;> (unfold runLoop; rw [if_neg hge])

theorem finalize_failure {s : MState}
    (h : s.conds ≠ [] ∨ s.args.length ≠ 1) : finalize s = .ok none := by
  unfold finalize
  split
  · rename_i heq1 heq2
    rw [heq1] at h
    rw [heq2] at h
    simp at h
  · rfl

theorem stepDispatch_unsupported {cv : ClosureVars} {s : MState}
    {ins : Instruction} (h : supportedOp ins.opname = false) :
    stepDispatch cv s ins = .done (.ok none) := by
  unfold supportedOp at h
  simp only [Bool.or_eq_false_iff, decide_eq_false_iff_not] at h
  obtain ⟨⟨⟨⟨⟨⟨⟨⟨⟨⟨⟨⟨⟨⟨⟨⟨⟨⟨h1, h2⟩, h3⟩, h4⟩, h5⟩, h6⟩, h7⟩, h8⟩, h9⟩,
    h10⟩, h11⟩, h12⟩, h13⟩, h14⟩, h15⟩, h16⟩, h17⟩, h18⟩, h19⟩ := h
  have c4 : ¬(ins.opname = "BUILD_LIST" ∨ ins.opname = "BUILD_TUPLE" ∨
      ins.opname = "BUILD_SET") := by
    rintro (he | he | he)
    · exact h4 he
    · exact h5 he
    · exact h6 he
  have c8 : ¬(ins.opname = "LOAD_METHOD" ∨ ins.opname = "LOAD_ATTR" ∨
      ins.opname = "LOAD_GLOBAL") := by
    rintro (he | he | he)
    · exact h10 he
    · exact h11 he
    · exact h12 he
  have c9 : ¬(ins.opname = "CALL_METHOD" ∨ ins.opname = "CALL_FUNCTION" ∨
      ins.opname = "CALL_FUNCTION_KW") := by
    rintro (he | he | he)
    · exact h13 he
    · exact h14 he
    · exact h15 he
  have c10 : ¬(strStartsWith ins.opname "BINARY_" = true ∨
      strStartsWith ins.opname "INPLACE_" = true ∨
      ins.opname = "COMPARE_OP") := by
    rintro (he | he | he)
    · rw [h16] at he
      cases he
    · rw [h17] at he
      cases he
    · exact h18 he
  unfold stepDispatch
  rw [if_neg h1, if_neg h2, if_neg h3, if_neg c4, if_neg h7, if_neg h8,
      if_neg h9, if_neg c8, if_neg c9, if_neg c10, if_neg h19]

theorem binaryOp_not_earlier {op : String}
    (h : strStartsWith op "BINARY_" = true ∨ strStartsWith op "INPLACE_" = true ∨
      op = "COMPARE_OP") :
    op ≠ "RETURN_VALUE" ∧ op ≠ "LOAD_CONST" ∧ op ≠ "LOAD_FAST" ∧
    ¬(op = "BUILD_LIST" ∨ op = "BUILD_TUPLE" ∨ op = "BUILD_SET") ∧
    op ≠ "BUILD_MAP" ∧ op ≠ "BUILD_CONST_KEY_MAP" ∧ op ≠ "LOAD_DEREF" ∧
    ¬(op = "LOAD_METHOD" ∨ op = "LOAD_ATTR" ∨ op = "LOAD_GLOBAL") ∧
    ¬(op = "CALL_METHOD" ∨ op = "CALL_FUNCTION" ∨ op = "CALL_FUNCTION_KW") := by
  rcases h with hb | hb | hb
  · refine ⟨?_, ?_, ?_, ?_, ?_, ?_, ?_, ?_, ?_⟩ <;> intro he <;>
      (try rcases he with he | he | he) <;> (try subst he) <;>
      revert hb <;> decide
  · refine ⟨?_, ?_, ?_, ?_, ?_, ?_, ?_, ?_, ?_⟩ <;> intro he <;>
      (try rcases he with he | he | he) <;> (try subst he) <;>
      revert hb <;> decide
  · subst hb
    refine ⟨?_, ?_, ?_, ?_, ?_, ?_, ?_, ?_, ?_⟩ <;> decide

theorem stepDispatch_tableMiss {cv : ClosureVars} {s : MState}
    {ins : Instruction}
    (hbin : strStartsWith ins.opname "BINARY_" = true ∨
      strStartsWith ins.opname "INPLACE_" = true ∨ ins.opname = "COMPARE_OP")
    (htab : alistFind (commandOf ins) _CommandTable = none) :
    stepDispatch cv s ins = .done (.ok none) := by
  obtain ⟨n1, n2, n3, n4, n5, n6, n7, n8, n9⟩ := binaryOp_not_earlier hbin
  unfold stepDispatch
  rw [if_neg n1, if_neg n2, if_neg n3, if_neg n4, if_neg n5, if_neg n6,
      if_neg n7, if_neg n8, if_neg n9, if_pos hbin]
  unfold stepBinary
  rw [htab]

/-! ## Facts about the wrapper's stored tuples -/

theorem strListOf_mapStr (l : List String) :
    strSeqOf.strListOf (l.map .strV) = some l := by
  induction l with
  | nil => rfl
  | cons a r ih => simp [strSeqOf.strListOf, ih]

theorem strSeqOf_mapStr (l : List String) :
    strSeqOf (.tupleV (l.map .strV)) = some l := by
  simp [strSeqOf, strListOf_mapStr]

theorem pyTruthy_strTuple (l : List String) :
    pyTruthy (.tupleV (l.map .strV)) = !l.isEmpty := by
  cases l <;> simp [pyTruthy]

theorem initDicts_preserves_summary (cfg : TraceableCfg)
    (d : List (String × Value)) :
    alistFind "_fe_traceability_summary" (initDicts cfg d) =
      alistFind "_fe_traceability_summary" d := by
  unfold initDicts
  by_cases h1 : alistHas "_fe_state_whitelist" d
  · rw [if_pos h1]
    by_cases h2 : alistHas "_fe_state_blacklist" d
    · rw [if_pos h2]
    · rw [if_neg h2, alistFind_set_ne (by decide)]
  · rw [if_neg h1]
    by_cases h2 : alistHas "_fe_state_blacklist"
        (alistSet "_fe_state_whitelist"
          (Value.tupleV (cfg.whitelist.map Value.strV)) d)
    · rw [if_pos h2, alistFind_set_ne (by decide)]
    · rw [if_neg h2, alistFind_set_ne (by decide),
        alistFind_set_ne (by decide)]

/-! ## The claims -/

/-- C1 (counterexample): the stream consisting of the single supported
instruction `COMPARE_OP '>'` makes `_parse_instructions` raise an
`IndexError` (the pop of the right operand underflows the empty operand
stack), so a malformed stream does propagate an exception to the caller,
contrary to the claim. -/
theorem C1_counterexample :
    _parse_instructions cv0 [⟨"COMPARE_OP", .s ">"⟩] = .error .indexError := rfl

/-- C1 (amended): for every closure scope and instruction stream,
`_parse_instructions` completes synchronously - the loop never exhausts
the wrapper's fuel - returning an Expression-Model node, the parse
failure `None`, or a raised exception (possible on malformed streams,
failed attribute resolution, or argument binding). -/
theorem C1_parse_total :
    ∀ (cv : ClosureVars) (instructions : List Instruction),
      ∃ r, parseCore cv instructions = some r ∧
        _parse_instructions cv instructions = r := by
  intro cv instructions
  cases hr : parseCore cv instructions with
  | none =>
    have htot := parseCore_total cv instructions
    rw [hr] at htot
    cases htot
  | some r =>
    refine ⟨r, rfl, ?_⟩
    unfold _parse_instructions
    rw [hr]
    rfl

/-- C9: the caller's instruction list is returned unchanged by a call of
`_parse_instructions` - the function's first statement copies the list
and every excision acts on that working copy - and the working copy
starts out element-for-element equal to the caller's list. -/
theorem C9_caller_preserved :
    ∀ (cv : ClosureVars) (instructions : List Instruction),
      (parseInstructionsCall cv instructions).2 = instructions ∧
      pyListCopy instructions = instructions := by
  intro cv instructions
  refine ⟨rfl, ?_⟩
  unfold pyListCopy
  simp

/-- C10: a bare-string whitelist or blacklist argument of `traceable` is
interchangeable with the one-element tuple holding that string - the
decorator produces the same result (the same configuration or the same
configuration error), so every derived behavior (summary, state,
errors) coincides. -/
theorem C10_string_arg :
    ∀ (v : String) (other : WBArg),
      traceable (.str v) other = traceable (.tup [v]) other ∧
      traceable other (.str v) = traceable other (.tup [v]) := by
  intro v other
  exact ⟨rfl, rfl⟩

/-- C7: `traceable` raises its `ValueError` at decoration time exactly
when both the normalized whitelist and the normalized blacklist are
non-empty; with only one (or neither) non-empty, decoration succeeds and
captures the normalized configuration.  No instance is involved: the
check happens before the class's `init` is ever wrapped. -/
theorem C7_config_error :
    ∀ (w b : WBArg),
      (traceable w b = .error .valueError ↔
        (normalizeWB w ≠ [] ∧ normalizeWB b ≠ [])) ∧
      ((normalizeWB w = [] ∨ normalizeWB b = []) →
        traceable w b = .ok ⟨normalizeWB w, normalizeWB b⟩) := by
  intro w b
  unfold traceable
  by_cases hc : normalizeWB w ≠ [] ∧ normalizeWB b ≠ []
  · rw [if_pos hc]
    refine ⟨⟨fun _ => hc, fun _ => rfl⟩, ?_⟩
    intro hor
    rcases hor with h | h
    · exact absurd h hc.1
    · exact absurd h hc.2
  · rw [if_neg hc]
    exact ⟨⟨(fun he => by cases he), (fun hcc => absurd hcc hc)⟩,
      (fun h2 => rfl)⟩

/-- C7 witness: both-configured raises; whitelist-only succeeds. -/
theorem C7_config_error_witness :
    traceable (.str "a") (.tup ["b"]) = .error .valueError ∧
    traceable (.tup ["a"]) (.tup []) = .ok ⟨["a"], []⟩ :=
  ⟨(C7_config_error (.str "a") (.tup ["b"])).1.mpr (by decide),
   (C7_config_error (.tup ["a"]) (.tup [])).2 (Or.inr rfl)⟩

/-- C5: the instruction stream of `lambda x, y: x if x > y else y`
reconstructs to
`Condition(VarRef("x"), VarRef("y"), Command(VarRef("x"), VarRef("y"), ">"))`
and the Value Tracer renders that node as `"x if x > y else y"`. -/
theorem C5_conditional_roundtrip :
    _parse_instructions cv0 streamC5 = .ok (some condNodeC5) ∧
    _trace_value 4 condNodeC5 true true = .ok "x if x > y else y" :=
  ⟨rfl, rfl⟩

/-- C4: the reconstructor's failure modes all yield `ParseFailure`
(`None`), and the tracer then falls back to the generic text: (1) an
opcode outside the supported vocabulary makes the loop return `None` at
the iteration that encounters it; (2) so does a binary/in-place/compare
mnemonic absent from the Operator Table; (3) a terminal state with a
pending condition or with an operand stack not exactly one deep
finalizes to `None`; (4) when `_parse_instructions` returns `None` for a
lambda, `_trace_value` renders it as the generic
`"a lambda function passing <params>"` text, with no `"to:"` clause. -/
theorem C4_failure_modes :
    (∀ (cv : ClosureVars) (fuel : Nat) (s : MState) (ins : Instruction),
      pyGetL s.work s.idx = some ins → s.idx < (s.work.length : Int) →
      supportedOp ins.opname = false →
      runLoop cv (fuel + 1) s = some (.ok none)) ∧
    (∀ (cv : ClosureVars) (fuel : Nat) (s : MState) (ins : Instruction),
      pyGetL s.work s.idx = some ins → s.idx < (s.work.length : Int) →
      (strStartsWith ins.opname "BINARY_" = true ∨
        strStartsWith ins.opname "INPLACE_" = true ∨
        ins.opname = "COMPARE_OP") →
      alistFind (commandOf ins) _CommandTable = none →
      runLoop cv (fuel + 1) s = some (.ok none)) ∧
    (∀ (cv : ClosureVars) (fuel : Nat) (s : MState),
      ¬ s.idx < (s.work.length : Int) →
      (s.conds ≠ [] ∨ s.args.length ≠ 1) →
      runLoop cv fuel s = some (.ok none)) ∧
    (∀ (fuel : Nat) (vars : List String) (instrs : List Instruction)
        (nl gl bl : List (String × Value)) (w i : Bool),
      _parse_instructions ⟨nl, gl, bl⟩ instrs = .ok none →
      _trace_value (fuel + 1) (.lam vars instrs nl gl bl) w i =
        .ok ("a lambda function passing " ++ lambdaParams vars)) := by
  refine ⟨?_, ?_, ?_, ?_⟩
  · intro cv fuel s ins hget hlt hsup
    exact runLoop_step_done hlt
      ((step_of_get hget).trans (stepDispatch_unsupported hsup))
  · intro cv fuel s ins hget hlt hbin htab
    exact runLoop_step_done hlt
      ((step_of_get hget).trans (stepDispatch_tableMiss hbin htab))
  · intro cv fuel s hge hfail
    rw [runLoop_exit hge, finalize_failure hfail]
  · intro fuel vars instrs nl gl bl w i hparse
    simp only [_trace_value]
    rw [hparse]

/-- C4 witness: an unsupported `LOAD_NAME` stream, a `COMPARE_OP 'is'`
stream (a comparison absent from the table), the empty terminal state,
and a lambda over the unsupported stream rendered as the generic text. -/
theorem C4_failure_modes_witness :
    runLoop cv0 1 ⟨[⟨"LOAD_NAME", .s "x"⟩], [], [], 0⟩ = some (.ok none) ∧
    runLoop cv0 1 ⟨[⟨"COMPARE_OP", .s "is"⟩], [], [], 0⟩ = some (.ok none) ∧
    runLoop cv0 0 ⟨[], [], [], 0⟩ = some (.ok none) ∧
    _trace_value 1 (.lam ["x"] [⟨"LOAD_NAME", .s "x"⟩] [] [] []) true true =
      .ok ("a lambda function passing " ++ lambdaParams ["x"]) :=
  ⟨C4_failure_modes.1 cv0 0 ⟨[⟨"LOAD_NAME", .s "x"⟩], [], [], 0⟩
      ⟨"LOAD_NAME", .s "x"⟩ rfl (by decide) (by decide),
   C4_failure_modes.2.1 cv0 0 ⟨[⟨"COMPARE_OP", .s "is"⟩], [], [], 0⟩
      ⟨"COMPARE_OP", .s "is"⟩ rfl (by decide)
      (Or.inr (Or.inr rfl)) (by decide),
   C4_failure_modes.2.2.1 cv0 0 ⟨[], [], [], 0⟩ (by decide)
      (Or.inr (by decide)),
   C4_failure_modes.2.2.2 0 ["x"] [⟨"LOAD_NAME", .s "x"⟩] [] [] [] true true
      rfl⟩

/-- C2 (counterexample): constructing `Widget(name="w", count=3)` through
the wrapper renders the `self` slot of the `_BoundFn` through the
instance-fallback branch of `_trace_value` (the summary is not cached yet
when it runs), so `fe_summary` yields
`"This experiment used an instance of __main__.Widget invoked with: {name='w', count=3}"`,
which differs from the claimed
`"This experiment used Widget invoked with: {name='w', count=3}"`. -/
theorem C2_counterexample :
    traceableInit ⟨[], []⟩ ["self", "name", "count"] [] 5 id "__main__"
        "Widget" 0 [] [] [("name", .strV "w"), ("count", .intV 3)] =
      .ok widgetDict ∧
    fe_summary widgetDict = .ok ("This experiment used " ++ widgetSummary) ∧
    "This experiment used " ++ widgetSummary ≠
      "This experiment used Widget invoked with: \x7bname='w', count=3\x7d" :=
  ⟨rfl, rfl, by decide⟩

/-- C2 (amended): the construction-capture scenario produces
`summary() == "This experiment used an instance of <module>.Widget invoked with: {name='w', count=3}"`:
the function slot of the bound call renders as
`an instance of <module>.<qualname>` (no id, since `include_id` is false
there), and the bound arguments render as `{name='w', count=3}`. -/
theorem C2_construction_capture :
    traceableInit ⟨[], []⟩ ["self", "name", "count"] [] 5 id "__main__"
        "Widget" 0 [] [] [("name", .strV "w"), ("count", .intV 3)] =
      .ok widgetDict ∧
    fe_summary widgetDict =
      .ok ("This experiment used an instance of __main__.Widget invoked with: \x7bname='w', count=3\x7d") :=
  ⟨rfl, rfl⟩

/-- C3: on every instance of a class wrapped with a blacklist (whitelist
empty, so the instance's falsy whitelist tuple skips the restriction),
`fe_state` succeeds and its result omits every blacklisted key - even
when present on the instance - as well as both of the wrapper's own
bookkeeping attributes, which the injected init appended to the stored
blacklist. -/
theorem C3_blacklist_state :
    ∀ (bl : List String) (d : List (String × Value)),
      alistFind "_fe_state_whitelist" d = some (.tupleV []) →
      alistFind "_fe_state_blacklist" d =
        some (.tupleV ((bl ++ bookkeepingKeys).map .strV)) →
      ∃ st, fe_state [] d = .ok st ∧
        ∀ k ∈ bl ++ bookkeepingKeys, alistFind k st = none := by
  intro bl d h1 h2
  unfold fe_state
  rw [h1]
  dsimp only
  rw [if_neg (by rw [show pyTruthy (.tupleV []) = false from rfl]; simp)]
  dsimp only
  rw [h2]
  dsimp only
  rw [strSeqOf_mapStr]
  dsimp only
  exact ⟨_, rfl, fun k hk => alistFind_foldl_pop_mem hk d⟩

/-- C3 witness: a `blacklist=("secret",)` instance carrying `secret`. -/
theorem C3_blacklist_state_witness :
    ∃ st, fe_state [] dictC3 = .ok st ∧
      ∀ k ∈ ["secret"] ++ bookkeepingKeys, alistFind k st = none :=
  C3_blacklist_state ["secret"] dictC3 rfl rfl

/-- C6: summary creation is idempotent.  (1) Tracing an instance that
carries a cached summary returns the cached string verbatim, for every
recursion allowance and every flag combination - the branch neither
recurses nor re-invokes reconstruction, so repeated renderings are
byte-for-byte identical.  (2) Re-entering the wrapped constructor on an
instance whose summary is already cached performs no re-binding and no
re-rendering: it succeeds for arbitrary signatures and arguments (even
non-bindable ones) and leaves the cached summary untouched. -/
theorem C6_summary_idempotent :
    (∀ (fuel : Nat) (m q : String) (cid : Nat) (d : List (String × Value))
        (s : String) (w i : Bool),
      alistFind "_fe_traceability_summary" d = some (.strV s) →
      _trace_value (fuel + 1) (.obj m q cid d) w i = .ok s) ∧
    (∀ (cfg : TraceableCfg) (sigP : List String)
        (sigD : List (String × Value)) (fuel : Nat)
        (base : List (String × Value) → List (String × Value))
        (m q : String) (cid : Nat) (d : List (String × Value))
        (pos : List Value) (kw : List (String × Value)),
      alistHas "_fe_traceability_summary" d = true →
      traceableInit cfg sigP sigD fuel base m q cid d pos kw =
          .ok (base (initDicts cfg d)) ∧
        alistFind "_fe_traceability_summary" (initDicts cfg d) =
          alistFind "_fe_traceability_summary" d) := by
  constructor
  · intro fuel m q cid d s w i h
    simp only [_trace_value]
    rw [h]
  · intro cfg sigP sigD fuel base m q cid d pos kw hhas
    have hpres := initDicts_preserves_summary cfg d
    have hhas2 : alistHas "_fe_traceability_summary" (initDicts cfg d) = true := by
      unfold alistHas at hhas ⊢
      rw [hpres]
      exact hhas
    constructor
    · unfold traceableInit
      rw [if_pos hhas2]
    · exact hpres

/-- C6 witness: a cached instance renders to its cached summary at two
different recursion allowances, and re-entering the constructor with a
non-bindable argument list still succeeds without touching the summary. -/
theorem C6_summary_idempotent_witness :
    _trace_value 1 (.obj "m" "C" 0 [("_fe_traceability_summary", .strV "S")])
        true true = .ok "S" ∧
    _trace_value 7 (.obj "m" "C" 0 [("_fe_traceability_summary", .strV "S")])
        false false = .ok "S" ∧
    (traceableInit ⟨[], []⟩ [] [] 0 id "m" "C" 0
        [("_fe_traceability_summary", .strV "S")] [.intV 1, .intV 2] [] =
      .ok (initDicts ⟨[], []⟩ [("_fe_traceability_summary", .strV "S")]) ∧
      alistFind "_fe_traceability_summary"
          (initDicts ⟨[], []⟩ [("_fe_traceability_summary", .strV "S")]) =
        alistFind "_fe_traceability_summary"
          [("_fe_traceability_summary", .strV "S")]) :=
  ⟨C6_summary_idempotent.1 0 "m" "C" 0 _ "S" true true rfl,
   C6_summary_idempotent.1 6 "m" "C" 0 _ "S" false false rfl,
   C6_summary_idempotent.2 ⟨[], []⟩ [] [] 0 id "m" "C" 0
      [("_fe_traceability_summary", .strV "S")] [.intV 1, .intV 2] []
      (by decide)⟩

/-- C8 (counterexample): an instance of a class wrapped with
`whitelist=("_fe_state_whitelist",)` has the whitelisted name present on
the instance, yet `fe_state` returns the empty mapping - the bookkeeping
pops run after the whitelist restriction and delete the whitelisted key -
so the result is not "exactly the whitelisted names" and no lookup
failure is raised either. -/
theorem C8_counterexample :
    fe_state ["_fe_state_whitelist"] dictC8 = .ok [] ∧
    alistFind "_fe_state_whitelist" ([] : List (String × Value)) = none :=
  ⟨rfl, rfl⟩

/-- C8 (amended): on an instance of a whitelist-wrapped class (instance
whitelist tuple equal to the decorator's non-empty whitelist, instance
blacklist tuple holding the stored blacklist names), `fe_state` returns a
mapping holding exactly the whitelisted names minus the stored blacklist
(in particular minus the wrapper's bookkeeping attributes, which the init
always stores there); and when any whitelisted name is absent from the
instance state, the call raises a `KeyError` instead. -/
theorem C8_whitelist_state :
    ∀ (wl blnames : List String) (d : List (String × Value)),
      alistFind "_fe_state_whitelist" d = some (.tupleV (wl.map .strV)) →
      wl ≠ [] →
      alistFind "_fe_state_blacklist" d =
        some (.tupleV (blnames.map .strV)) →
      ((∀ k ∈ wl, alistHas k d = true) →
        ∃ st, fe_state wl d = .ok st ∧
          ∀ k, alistHas k st = (wl.contains k && !blnames.contains k)) ∧
      ((∃ k ∈ wl, alistFind k d = none) →
        ∃ k2, fe_state wl d = .error (.keyError k2)) := by
  intro wl blnames d h1 hne h2
  have htruthy : pyTruthy (.tupleV (wl.map .strV)) = true := by
    rw [pyTruthy_strTuple]
    cases wl with
    | nil => exact absurd rfl hne
    | cons a r => simp
  constructor
  · intro hall
    obtain ⟨res, hres⟩ := whitelistComp_ok_of_present hall []
    unfold fe_state
    rw [h1]
    dsimp only
    rw [if_pos htruthy, hres]
    dsimp only
    rw [h2]
    dsimp only
    rw [strSeqOf_mapStr]
    dsimp only
    refine ⟨_, rfl, ?_⟩
    intro k
    by_cases hkb : k ∈ blnames
    · have hleft : alistFind k
          (blnames.foldl (fun acc k2 => alistPop k2 acc) res) = none :=
        alistFind_foldl_pop_mem hkb res
      unfold alistHas
      rw [hleft]
      have hc : blnames.contains k = true := by
        simpa [List.contains] using hkb
      simp [hc]
      exact fun _ => hkb
    · unfold alistHas
      rw [alistFind_foldl_pop_not_mem hkb]
      have hrm := whitelistComp_has hres k
      unfold alistHas at hrm
      rw [hrm]
      have hc : blnames.contains k = false := by
        simpa [List.contains] using hkb
      simp [hc, alistFind]
      exact fun _ => hkb
  · rintro ⟨k, hk, hmiss⟩
    obtain ⟨k2, hk2⟩ := whitelistComp_error_of_missing hk hmiss []
    refine ⟨k2, ?_⟩
    unfold fe_state
    rw [h1]
    dsimp only
    rw [if_pos htruthy, hk2]

/-- C8 witness: `whitelist=("a",)` with `a` present returns exactly
`{a}`; with `a` absent it raises a `KeyError`. -/
theorem C8_whitelist_state_witness :
    (∃ st, fe_state ["a"] dictC8w = .ok st ∧
      ∀ k, alistHas k st =
        (["a"].contains k && !bookkeepingKeys.contains k)) ∧
    (∃ k2, fe_state ["a"] dictC8m = .error (.keyError k2)) :=
  ⟨(C8_whitelist_state ["a"] bookkeepingKeys dictC8w rfl (by decide) rfl).1
      (by decide),
   (C8_whitelist_state ["a"] bookkeepingKeys dictC8m rfl (by decide) rfl).2
      ⟨"a", by decide, rfl⟩⟩
